import Mathlib

/-!
# roundtrip: forward/reverse DNS consistency of the rows of a CSV file

A shallow embedding of `roundtrip.go` (functions `handleIP` and `handleName`, the
header loop and the row loop of `process`) together with the properties of the
design document that can be checked on it.

Modelling conventions.

* A Go `string` is a Lean `String`; comparison is by code point, which for
  well-formed UTF-8 agrees with Go's bytewise comparison.
* The system resolver is a pair of functions (`Resolver`).  An answer is
  `Except String (List String)`: `error e` stands for `err != nil` with
  `err.Error() = e`.  As in package `net`, the empty string is never resolved.
* Every call of the resolver is recorded in a list of `Query`, so that "the
  lookups a function performs" is a value that theorems can speak about.
* `slices.Compact` is called at lines 189 and 216 with its result dropped, so
  only its effect on the backing array is visible.  Up to Go 1.21 the elements
  behind the compacted prefix are left as they were, from Go 1.22 on they are
  zeroed.  The flag `zeroTail` selects between the two, and every theorem is
  stated for both.
* `net.ParseIP` followed by `IP.String` is a parameter `parseIP` of the row loop.
* The input column is a parameter `inCol` of the row loop: the result of the
  column selection of lines 73-89, which is not modelled.
* The loop that looks for a free column suffix (lines 98-101) takes a bound
  `fuel` on the number of tests; the header theorem shows which bound is enough.
-/

deriving instance DecidableEq for Except

namespace Roundtrip

/-! ## Strings -/

/-- Go `strings.ToLower` on ASCII text: the letters `A` to `Z` are mapped to `a` to
`z`.  Characters outside ASCII, which Go maps by the Unicode case tables, are
left as they are; no theorem depends on them. -/
def toLower (s : String) : String :=
  String.mk (s.data.map Char.toLower)

/-- Go `strings.TrimSuffix`: drop `suffix` once from the end of `s` when it is there. -/
def trimSuffix (s suffix : String) : String :=
  if suffix.data.isSuffixOf s.data then
    String.mk (s.data.take (s.data.length - suffix.data.length))
  else s

/-- The normalisation of lines 186, 210 and 224:
`strings.TrimSuffix(strings.ToLower(v), ".")`. -/
def normalize (v : String) : String :=
  trimSuffix (toLower v) "."

/-- Lexicographic comparison of character lists by code point. -/
def lessChars : List Char → List Char → Bool
  | [], [] => false
  | [], _ :: _ => true
  | _ :: _, [] => false
  | a :: as, b :: bs =>
    if a.toNat < b.toNat then true
    else if b.toNat < a.toNat then false
    else lessChars as bs

/-- Go `a < b` on strings. -/
def less (a b : String) : Bool :=
  lessChars a.data b.data

/-- Go `slices.Sort` on a `[]string`: the ascending arrangement of the elements. -/
def sortStrings (l : List String) : List String :=
  l.insertionSort (fun a b => less b a = false)

/-- Go `strings.Join(l, " ")`. -/
def joinSpace (l : List String) : String :=
  " ".intercalate l

/-- The slice `slices.Compact` returns: one copy of every run of equal neighbours. -/
def compactPrefix : List String → List String
  | [] => []
  | [a] => [a]
  | a :: b :: rest =>
    if a = b then compactPrefix (b :: rest) else a :: compactPrefix (b :: rest)

/-- The contents of a slice variable after `slices.Compact(s)` whose result is
dropped: the length is unchanged, the compacted elements are at the front, and
the elements behind them are zeroed (`zeroTail`, Go 1.22 and later) or left as
they were (Go 1.21). -/
def compactInPlace (zeroTail : Bool) (s : List String) : List String :=
  compactPrefix s ++
    (if zeroTail then List.replicate (s.length - (compactPrefix s).length) ""
     else s.drop (compactPrefix s).length)

/-! ## The resolver -/

/-- One call of the resolver. -/
inductive Query where
  | addr (ip : String)
  | host (name : String)
deriving DecidableEq

/-- The resolver behind `net.LookupAddr` (address to host names) and
`net.LookupHost` (host name to addresses).  Both functions of package `net`
reject the empty string before any lookup is made: `LookupHost` returns
"no such host" for the empty host, `LookupAddr` fails on a string that is not
an IP address. -/
structure Resolver where
  lookupAddr : String → Except String (List String)
  lookupHost : String → Except String (List String)
  lookupAddr_empty : ∃ e, lookupAddr "" = Except.error e
  lookupHost_empty : ∃ e, lookupHost "" = Except.error e

/-- The answer of the resolver to a query. -/
def Resolver.answer (r : Resolver) : Query → Except String (List String)
  | Query.addr ip => r.lookupAddr ip
  | Query.host name => r.lookupHost name

/-- The lookup returned a result (`err == nil`). -/
def succeeded : Except String (List String) → Bool
  | Except.ok _ => true
  | Except.error _ => false

/-- What `handleIP` and `handleName` return, with the lookups they made. -/
structure Outcome where
  forward : String
  reverse : String
  ok : Bool
  queries : List Query
deriving DecidableEq

/-- A Go `map[string]struct{}` as the list of its keys: setting a key that is
present leaves the map as it is. -/
def insertAll (keys : List String) (added : List String) : List String :=
  added.foldl (fun m a => m.insert a) keys

/-! ## handleIP -/

/-- The loop of lines 191-199: look up every name, stop at the first failure,
collect the addresses in the map `ips`. -/
def lookupHosts (r : Resolver) :
    List String → List String → Except String (List String) × List Query
  | [], ips => (Except.ok ips, [])
  | name :: rest, ips =>
    match r.lookupHost name with
    | Except.error e => (Except.error e, [Query.host name])
    | Except.ok addrs =>
      ((lookupHosts r rest (insertAll ips addrs)).1,
        Query.host name :: (lookupHosts r rest (insertAll ips addrs)).2)

/-- The slice `names` of `handleIP` after lines 185-189. -/
def namesOf (zeroTail : Bool) (raw : List String) : List String :=
  compactInPlace zeroTail (sortStrings (raw.map normalize))

/-- Function `handleIP` (lines 179-207). -/
def handleIP (zeroTail : Bool) (r : Resolver) (ip : String) : Outcome :=
  match r.lookupAddr ip with
  | Except.error e => ⟨"", "ERROR: " ++ e, false, [Query.addr ip]⟩
  | Except.ok raw =>
    let names := namesOf zeroTail raw
    match (lookupHosts r names []).1 with
    | Except.error e =>
      ⟨"ERROR: " ++ e, "", false, Query.addr ip :: (lookupHosts r names []).2⟩
    | Except.ok ips =>
      ⟨joinSpace (sortStrings ips), joinSpace names, decide (ip ∈ ips),
        Query.addr ip :: (lookupHosts r names []).2⟩

/-! ## handleName -/

/-- The loop of lines 218-226: look up every address, stop at the first failure,
collect the normalised names in the map `hostnames`. -/
def lookupAddrs (r : Resolver) :
    List String → List String → Except String (List String) × List Query
  | [], hostnames => (Except.ok hostnames, [])
  | addr :: rest, hostnames =>
    match r.lookupAddr addr with
    | Except.error e => (Except.error e, [Query.addr addr])
    | Except.ok names =>
      ((lookupAddrs r rest (insertAll hostnames (names.map normalize))).1,
        Query.addr addr ::
          (lookupAddrs r rest (insertAll hostnames (names.map normalize))).2)

/-- The slice `addrs` of `handleName` after lines 215-216. -/
def addrsOf (zeroTail : Bool) (raw : List String) : List String :=
  compactInPlace zeroTail (sortStrings raw)

/-- Function `handleName` (lines 209-234). -/
def handleName (zeroTail : Bool) (r : Resolver) (name : String) : Outcome :=
  let name := normalize name
  match r.lookupHost name with
  | Except.error e => ⟨"ERROR: " ++ e, "", false, [Query.host name]⟩
  | Except.ok raw =>
    let addrs := addrsOf zeroTail raw
    match (lookupAddrs r addrs []).1 with
    | Except.error e =>
      ⟨"", "ERROR: " ++ e, false, Query.host name :: (lookupAddrs r addrs []).2⟩
    | Except.ok hostnames =>
      ⟨joinSpace addrs, joinSpace (sortStrings hostnames), decide (name ∈ hostnames),
        Query.host name :: (lookupAddrs r addrs []).2⟩

/-! ## Classification of an input value -/

/-- Go `unicode.IsSpace`. -/
def isSpace (c : Char) : Bool :=
  let n := c.toNat
  (9 ≤ n && n ≤ 13) || n = 32 || n = 133 || n = 160 || n = 5760 ||
    (8192 ≤ n && n ≤ 8202) || n = 8232 || n = 8233 || n = 8239 || n = 8287 || n = 12288

/-- Go `strings.TrimSpace`: drop the white space at both ends. -/
def trimSpace (s : String) : String :=
  String.mk ((s.data.dropWhile isSpace).reverse.dropWhile isSpace).reverse

/-- A character class given by the list of its members. -/
def oneOf (cs : List Char) : RegularExpression Char :=
  cs.foldr (fun c r => RegularExpression.char c + r) 0

/-- The repetition `r{0,n}`. -/
def atMost (r : RegularExpression Char) : Nat → RegularExpression Char
  | 0 => 1
  | n + 1 => 1 + r * atMost r n

/-- The members of the class `[a-zA-Z0-9_-]`. -/
def labelChars : List Char :=
  "abcdefghijklmnopqrstuvwxyzABCDEFGHIJKLMNOPQRSTUVWXYZ0123456789_-".data

/-- The expression `[a-zA-Z0-9_-]{1,63}`. -/
def labelRe : RegularExpression Char :=
  oneOf labelChars * atMost (oneOf labelChars) 62

/-- The expression `\.[a-zA-Z0-9_-]{1,63}`. -/
def dotLabelRe : RegularExpression Char :=
  RegularExpression.char '.' * labelRe

/-- The expression of line 110,
`^[a-zA-Z0-9_-]{1,63}(?:\.[a-zA-Z0-9_-]{1,63})+\.?$`; the anchors make it a
match of the whole text. -/
def hostnameRe : RegularExpression Char :=
  labelRe * (dotLabelRe * RegularExpression.star dotLabelRe) * (1 + RegularExpression.char '.')

/-- The call `hostnameRe.MatchString(input)` of line 126. -/
def matchString (input : String) : Bool :=
  hostnameRe.rmatch input.data

/-- The branch of lines 124-131 taken for a trimmed input value: `handleIP` on the
canonical text of a parsed address, `handleName` on a text that matches
`hostnameRe`, and `none` for a value that is neither (the row is discarded).
`parseIP` is `net.ParseIP` followed by `IP.String`, `none` when `ParseIP`
returns nil. -/
def resolveInput (zeroTail : Bool) (parseIP : String → Option String) (r : Resolver)
    (input : String) : Option Outcome :=
  match parseIP input with
  | some ip => some (handleIP zeroTail r ip)
  | none =>
    if matchString input then some (handleName zeroTail r input)
    else none

/-- The text of the verdict column (lines 132-137). -/
def roundtripOK (ok : Bool) : String :=
  if ok then "yes" else "no"

/-! ## The row loop -/

/-- The variables the row loop of `process` updates, with the lookups made. -/
structure Rows where
  processedRows : List (List String)
  discardedRows : List (List String)
  queries : List Query
deriving DecidableEq

/-- The loop of lines 117-139 over the data rows.  `none` stands for the run-time
panic of `record[inCol]` on a record that is too short. -/
def rowLoop (zeroTail : Bool) (parseIP : String → Option String) (r : Resolver)
    (inCol : Nat) : List (List String) → Rows → Option Rows
  | [], acc => some acc
  | record :: rest, acc =>
    match record[inCol]? with
    | none => none
    | some field =>
      match resolveInput zeroTail parseIP r (trimSpace field) with
      | none =>
        rowLoop zeroTail parseIP r inCol rest
          { acc with discardedRows := acc.discardedRows ++ [record] }
      | some o =>
        rowLoop zeroTail parseIP r inCol rest
          { acc with
            processedRows :=
              acc.processedRows ++ [record ++ [o.forward, o.reverse, roundtripOK o.ok]]
            queries := acc.queries ++ o.queries }

/-! ## The output header -/

/-- The name `fmt.Sprintf("%s_%d", colName, spin)`. -/
def suffixed (colName : String) (spin : Nat) : String :=
  colName ++ "_" ++ Nat.repr spin

/-- The loop of lines 98-101, started at `spin`: the first `spin` whose suffixed
name is not in `names`.  `fuel` bounds the number of tests. -/
def findSpin (names : List String) (colName : String) : Nat → Nat → Option Nat
  | 0, _ => none
  | fuel + 1, spin =>
    if names.contains (suffixed colName spin) then findSpin names colName fuel (spin + 1)
    else some spin

/-- One round of the loop of lines 93-103: append `colName`, or its first free
suffixed form when `colName` is taken. -/
def addColumn (fuel : Nat) (names : List String) (colName : String) : Option (List String) :=
  if !names.contains colName then some (names ++ [colName])
  else
    match findSpin names colName fuel 1 with
    | none => none
    | some spin => some (names ++ [suffixed colName spin])

/-- The header `newColNames` of lines 92-103. -/
def newColNames (fuel : Nat) (colNames : List String) : Option (List String) :=
  match addColumn fuel colNames "ips_from_forward_dns" with
  | none => none
  | some names1 =>
    match addColumn fuel names1 "hostnames_from_reverse_dns" with
    | none => none
    | some names2 => addColumn fuel names2 "roundtrip_ok"

/-! ## Definitions used in statements and proofs -/

/-- The common shape of the loops `lookupHosts` and `lookupAddrs`; proofs about
the two loops go through it. -/
def walk (lookup : String → Except String (List String)) (mk : String → Query)
    (f : String → String) :
    List String → List String → Except String (List String) × List Query
  | [], acc => (Except.ok acc, [])
  | k :: rest, acc =>
    match lookup k with
    | Except.error e => (Except.error e, [mk k])
    | Except.ok l =>
      ((walk lookup mk f rest (insertAll acc (l.map f))).1,
        mk k :: (walk lookup mk f rest (insertAll acc (l.map f))).2)

/-- The outcome `o` encodes the failure of query `q` with error text `e`: the
verdict is negative, the field of the failed direction (reverse for an address
query, forward for a host query) is the error marker, the other field is empty. -/
def EncodesFailure (o : Outcome) (q : Query) (e : String) : Prop :=
  o.ok = false ∧
  match q with
  | Query.addr _ => o.reverse = "ERROR: " ++ e ∧ o.forward = ""
  | Query.host _ => o.forward = "ERROR: " ++ e ∧ o.reverse = ""

/-! ## Resolvers used as examples -/

/-- A resolver that tells `Host.Example.` from `host.example`. -/
def caseResolver : Resolver where
  lookupAddr := fun a =>
    if a = "192.0.2.5" then Except.ok ["Host.Example."]
    else Except.error "lookup: no such host"
  lookupHost := fun h =>
    if h = "Host.Example." then Except.ok ["192.0.2.5"]
    else if h = "host.example" then Except.ok ["192.0.2.9"]
    else Except.error "lookup: no such host"
  lookupAddr_empty := ⟨_, rfl⟩
  lookupHost_empty := ⟨_, rfl⟩

/-- A resolver in which `192.0.2.5` has two names, one of which does not resolve. -/
def partialResolver : Resolver where
  lookupAddr := fun a =>
    if a = "192.0.2.5" then Except.ok ["a.example", "b.example"]
    else Except.error "lookup: no such host"
  lookupHost := fun h =>
    if h = "a.example" then Except.ok ["192.0.2.5"]
    else Except.error "lookup: no such host"
  lookupAddr_empty := ⟨_, rfl⟩
  lookupHost_empty := ⟨_, rfl⟩

/-- A resolver that knows `host.example` only in lower case without the dot. -/
def lowerResolver : Resolver where
  lookupAddr := fun a =>
    if a = "192.0.2.7" then Except.ok ["Host.Example."]
    else Except.error "lookup: no such host"
  lookupHost := fun h =>
    if h = "host.example" then Except.ok ["192.0.2.7"]
    else Except.error "lookup: no such host"
  lookupAddr_empty := ⟨_, rfl⟩
  lookupHost_empty := ⟨_, rfl⟩

/-- The resolver of the end-to-end scenario: `example.com` has the address
`192.0.2.5`, whose name is `example.com`. -/
def scenarioResolver : Resolver where
  lookupAddr := fun a =>
    if a = "192.0.2.5" then Except.ok ["example.com"]
    else Except.error "lookup: no such host"
  lookupHost := fun h =>
    if h = "example.com" then Except.ok ["192.0.2.5"]
    else Except.error "lookup: no such host"
  lookupAddr_empty := ⟨_, rfl⟩
  lookupHost_empty := ⟨_, rfl⟩

/-- A resolver that answers with the same entry more than once: `192.0.2.5` has
the names `a.example` and `A.Example.`, and `a.example` has the address twice. -/
def repeatingResolver : Resolver where
  lookupAddr := fun a =>
    if a = "192.0.2.5" then Except.ok ["a.example", "A.Example."]
    else Except.error "lookup: no such host"
  lookupHost := fun h =>
    if h = "a.example" then Except.ok ["192.0.2.5", "192.0.2.5"]
    else Except.error "lookup: no such host"
  lookupAddr_empty := ⟨_, rfl⟩
  lookupHost_empty := ⟨_, rfl⟩

/-! ## Definitions used in the statements about the row loop -/

/-- The value the row loop works on: `strings.TrimSpace(record[inCol])`. -/
def selectedValue (inCol : Nat) (record : List String) : String :=
  trimSpace (record.getD inCol "")

/-- The value neither parses as an IP address nor matches `hostnameRe`. -/
def unclassified (parseIP : String → Option String) (input : String) : Bool :=
  (parseIP input).isNone && !matchString input

/-- The output row of a record whose value was resolved with outcome `o`. -/
def extendRecord (record : List String) (o : Outcome) : List String :=
  record ++ [o.forward, o.reverse, roundtripOK o.ok]

/-- The output row of a record, if its value is classified. -/
def outputRow (zeroTail : Bool) (parseIP : String → Option String) (r : Resolver)
    (inCol : Nat) (record : List String) : Option (List String) :=
  (resolveInput zeroTail parseIP r (selectedValue inCol record)).map (extendRecord record)

/-- The lookups made for a record. -/
def rowQueries (zeroTail : Bool) (parseIP : String → Option String) (r : Resolver)
    (inCol : Nat) (record : List String) : List Query :=
  match resolveInput zeroTail parseIP r (selectedValue inCol record) with
  | none => []
  | some o => o.queries

/-! ## A stand-in for `net.ParseIP` in examples -/

/-- The pieces of a text between its dots. -/
def splitDots : List Char → List (List Char)
  | [] => [[]]
  | c :: cs =>
    if c = '.' then [] :: splitDots cs
    else
      match splitDots cs with
      | [] => [[c]]
      | piece :: pieces => (c :: piece) :: pieces

/-- The value of a list of decimal digits. -/
def decimalValue (digits : List Char) : Nat :=
  digits.foldl (fun acc c => 10 * acc + (c.toNat - 48)) 0

/-- One field of a dotted-decimal IPv4 address: one to three digits, no leading
zero, at most 255. -/
def isOctet (field : List Char) : Bool :=
  decide (1 ≤ field.length) && decide (field.length ≤ 3) && field.all Char.isDigit &&
    (decide (field.length = 1) || field.head? != some '0') && decide (decimalValue field ≤ 255)

/-- The dotted-decimal IPv4 part of `net.ParseIP` followed by `IP.String`: a text
of four octets is its own canonical form, any other text is not parsed here.
It stands for `parseIP` in examples, none of which has a colon. -/
def dottedQuad (s : String) : Option String :=
  if (splitDots s.data).length = 4 && (splitDots s.data).all isOctet then some s else none

/-! ## Definitions used in the statements about the header -/

/-- The name that a column `base` gets when appended to `names`: `base` itself
when `names` does not contain it, otherwise `base_k` for the least `k ≥ 1`
such that `base_k` is not in `names`. -/
def IsFreeName (names : List String) (base name : String) : Prop :=
  (base ∉ names ∧ name = base) ∨
  (base ∈ names ∧ ∃ k, 1 ≤ k ∧ name = suffixed base k ∧ suffixed base k ∉ names ∧
    ∀ j, 1 ≤ j → j < k → suffixed base j ∈ names)

/-! ## The hostname grammar in the words of the design document -/

/-- An ASCII letter, a digit or the hyphen. -/
def isLetterDigitHyphen (c : Char) : Bool :=
  let n := c.toNat
  (97 ≤ n && n ≤ 122) || (65 ≤ n && n ≤ 90) || (48 ≤ n && n ≤ 57) || n = 45

/-- An ASCII letter, a digit, the hyphen or the underscore. -/
def isLabelChar (c : Char) : Bool :=
  isLetterDigitHyphen c || c.toNat = 95

/-- A label: 1 to 63 characters, all of them allowed. -/
def IsLabel (allowed : Char → Bool) (l : List Char) : Prop :=
  1 ≤ l.length ∧ l.length ≤ 63 ∧ ∀ c ∈ l, allowed c = true

/-- The text is made of at least two labels separated by dots, optionally followed
by a single trailing dot. -/
def IsHostname (allowed : Char → Bool) (s : String) : Prop :=
  ∃ labels : List (List Char), 2 ≤ labels.length ∧ (∀ l ∈ labels, IsLabel allowed l) ∧
    (s.data = ['.'].intercalate labels ∨ s.data = ['.'].intercalate labels ++ ['.'])

theorem succeeded_iff (a : Except String (List String)) :
    succeeded a = true ↔ ∃ l, a = Except.ok l := by
  cases a <;> simp [succeeded]

/-! ## Lemmas on the slice helpers -/

theorem mem_sortStrings (x : String) (l : List String) :
    x ∈ sortStrings l ↔ x ∈ l :=
  (List.perm_insertionSort _ l).mem_iff

theorem mem_compactPrefix (x : String) : ∀ s : List String, x ∈ compactPrefix s ↔ x ∈ s
  | [] => by simp [compactPrefix]
  | [a] => by simp [compactPrefix]
  | a :: b :: rest => by
    have ih := mem_compactPrefix x (b :: rest)
    by_cases h : a = b
    · subst h
      simp only [compactPrefix, if_true, ih]
      simp
    · simp only [compactPrefix, if_neg h, List.mem_cons, ih]

theorem mem_compactInPlace_of_mem (z : Bool) (x : String) (s : List String) (h : x ∈ s) :
    x ∈ compactInPlace z s := by
  unfold compactInPlace
  exact List.mem_append_left _ ((mem_compactPrefix x s).2 h)

theorem mem_compactInPlace (z : Bool) (x : String) (s : List String)
    (h : x ∈ compactInPlace z s) : x ∈ s ∨ (z = true ∧ x = "") := by
  unfold compactInPlace at h
  rcases List.mem_append.1 h with h | h
  · exact Or.inl ((mem_compactPrefix x s).1 h)
  · cases z
    · exact Or.inl (List.mem_of_mem_drop (by simpa using h))
    · simp only [if_true] at h
      exact Or.inr ⟨rfl, (List.mem_replicate.1 h).2⟩

theorem mem_insertAll (x : String) (added : List String) :
    ∀ keys : List String, x ∈ insertAll keys added ↔ x ∈ keys ∨ x ∈ added := by
  induction added with
  | nil => intro keys; simp [insertAll]
  | cons a rest ih =>
    intro keys
    have := ih (keys.insert a)
    simp only [insertAll, List.foldl_cons] at this ⊢
    rw [this, List.mem_insert_iff, List.mem_cons]
    tauto

/-! ## Lemmas on the second-hop loops -/

theorem lookupHosts_eq_walk (r : Resolver) (names : List String) :
    ∀ ips, lookupHosts r names ips = walk r.lookupHost Query.host id names ips := by
  induction names with
  | nil => intro ips; rfl
  | cons n rest ih =>
    intro ips
    simp only [lookupHosts, walk]
    cases r.lookupHost n with
    | error e => rfl
    | ok l => simp only [ih, List.map_id]

theorem lookupAddrs_eq_walk (r : Resolver) (addrs : List String) :
    ∀ hs, lookupAddrs r addrs hs = walk r.lookupAddr Query.addr normalize addrs hs := by
  induction addrs with
  | nil => intro hs; rfl
  | cons a rest ih =>
    intro hs
    simp only [lookupAddrs, walk]
    cases r.lookupAddr a with
    | error e => rfl
    | ok l => simp only [ih]

section Walk

variable (lookup : String → Except String (List String)) (mk : String → Query)
variable (f : String → String)

theorem walk_ok (keys : List String) :
    ∀ acc res, (walk lookup mk f keys acc).1 = Except.ok res →
      (∀ k ∈ keys, succeeded (lookup k) = true) ∧
      (walk lookup mk f keys acc).2 = keys.map mk ∧
      ∀ x, x ∈ res ↔ x ∈ acc ∨ ∃ k ∈ keys, ∃ l, lookup k = Except.ok l ∧ x ∈ l.map f := by
  induction keys with
  | nil =>
    intro acc res h
    simp only [walk, Except.ok.injEq] at h
    subst h
    simp [walk]
  | cons k rest ih =>
    intro acc res h
    simp only [walk] at h ⊢
    cases hk : lookup k with
    | error e => rw [hk] at h; simp at h
    | ok l =>
      rw [hk] at h
      simp only at h ⊢
      obtain ⟨h1, h2, h3⟩ := ih _ _ h
      refine ⟨?_, ?_, ?_⟩
      · intro k' hk'
        rcases List.mem_cons.1 hk' with rfl | hk'
        · simp [hk, succeeded]
        · exact h1 k' hk'
      · simp [h2]
      · intro x
        rw [h3 x, mem_insertAll]
        constructor
        · rintro ((hx | hx) | ⟨k', hk', l', hl', hx⟩)
          · exact Or.inl hx
          · exact Or.inr ⟨k, List.mem_cons_self _ _, l, hk, hx⟩
          · exact Or.inr ⟨k', List.mem_cons_of_mem _ hk', l', hl', hx⟩
        · rintro (hx | ⟨k', hk', l', hl', hx⟩)
          · exact Or.inl (Or.inl hx)
          · rcases List.mem_cons.1 hk' with rfl | hk'
            · rw [hk] at hl'
              cases hl'
              exact Or.inl (Or.inr hx)
            · exact Or.inr ⟨k', hk', l', hl', hx⟩

theorem walk_error (keys : List String) :
    ∀ acc e, (walk lookup mk f keys acc).1 = Except.error e →
      ∃ k ∈ keys, lookup k = Except.error e := by
  induction keys with
  | nil => intro acc e h; simp [walk] at h
  | cons k rest ih =>
    intro acc e h
    simp only [walk] at h
    cases hk : lookup k with
    | error e' =>
      rw [hk] at h
      simp only [Except.error.injEq] at h
      subst h
      exact ⟨k, List.mem_cons_self _ _, hk⟩
    | ok l =>
      rw [hk] at h
      obtain ⟨k', hk', he⟩ := ih _ _ h
      exact ⟨k', List.mem_cons_of_mem _ hk', he⟩

theorem walk_queries (keys : List String) :
    ∀ acc, ∀ q ∈ (walk lookup mk f keys acc).2, ∃ k ∈ keys, q = mk k := by
  induction keys with
  | nil => intro acc q hq; simp [walk] at hq
  | cons k rest ih =>
    intro acc q hq
    simp only [walk] at hq
    cases hk : lookup k with
    | error e' =>
      rw [hk] at hq
      simp only [List.mem_singleton] at hq
      exact ⟨k, List.mem_cons_self _ _, hq⟩
    | ok l =>
      rw [hk] at hq
      rcases List.mem_cons.1 hq with rfl | hq
      · exact ⟨k, List.mem_cons_self _ _, rfl⟩
      · obtain ⟨k', hk', he⟩ := ih _ _ hq
        exact ⟨k', List.mem_cons_of_mem _ hk', he⟩

theorem walk_failed_query (hmk : Function.Injective mk) (keys : List String) :
    ∀ acc k e, mk k ∈ (walk lookup mk f keys acc).2 → lookup k = Except.error e →
      (walk lookup mk f keys acc).1 = Except.error e := by
  induction keys with
  | nil => intro acc k e hq; simp [walk] at hq
  | cons k0 rest ih =>
    intro acc k e hq he
    simp only [walk] at hq ⊢
    cases hk : lookup k0 with
    | error e' =>
      rw [hk] at hq
      simp only [List.mem_singleton] at hq
      have := hmk hq
      subst this
      rw [hk] at he
      simpa using he
    | ok l =>
      rw [hk] at hq
      simp only
      rcases List.mem_cons.1 hq with hq | hq
      · have := hmk hq
        subst this
        rw [hk] at he
        cases he
      · exact ih _ _ _ hq he

theorem walk_all_succeeded (keys : List String) :
    ∀ acc, (∀ k, mk k ∈ (walk lookup mk f keys acc).2 → succeeded (lookup k) = true) →
      ∃ res, (walk lookup mk f keys acc).1 = Except.ok res := by
  induction keys with
  | nil => intro acc _; exact ⟨acc, rfl⟩
  | cons k0 rest ih =>
    intro acc h
    simp only [walk] at h ⊢
    cases hk : lookup k0 with
    | error e' =>
      rw [hk] at h
      have := h k0 (by simp)
      simp [hk, succeeded] at this
    | ok l =>
      rw [hk] at h
      simp only
      exact ih _ (fun k hq => h k (List.mem_cons_of_mem _ hq))

end Walk

theorem host_injective : Function.Injective Query.host := by
  intro a b h
  cases h
  rfl

theorem addr_injective : Function.Injective Query.addr := by
  intro a b h
  cases h
  rfl

theorem mem_namesOf_of_mem (z : Bool) (raw : List String) (h : String) (hh : h ∈ raw) :
    normalize h ∈ namesOf z raw :=
  mem_compactInPlace_of_mem z _ _
    ((mem_sortStrings _ _).2 (List.mem_map_of_mem normalize hh))

theorem mem_namesOf (z : Bool) (raw : List String) (n : String) (hn : n ∈ namesOf z raw) :
    (∃ h ∈ raw, normalize h = n) ∨ n = "" := by
  rcases mem_compactInPlace z n _ hn with h | ⟨_, h⟩
  · exact Or.inl (List.mem_map.1 ((mem_sortStrings _ _).1 h))
  · exact Or.inr h

theorem mem_addrsOf_of_mem (z : Bool) (raw : List String) (a : String) (ha : a ∈ raw) :
    a ∈ addrsOf z raw :=
  mem_compactInPlace_of_mem z _ _ ((mem_sortStrings _ _).2 ha)

theorem mem_addrsOf (z : Bool) (raw : List String) (a : String) (ha : a ∈ addrsOf z raw) :
    a ∈ raw ∨ a = "" := by
  rcases mem_compactInPlace z a _ ha with h | ⟨_, h⟩
  · exact Or.inl ((mem_sortStrings _ _).1 h)
  · exact Or.inr h

theorem handleIP_error (z : Bool) (r : Resolver) (ip e : String)
    (h1 : r.lookupAddr ip = Except.error e) :
    handleIP z r ip = ⟨"", "ERROR: " ++ e, false, [Query.addr ip]⟩ := by
  simp only [handleIP, h1]

theorem handleIP_queries (z : Bool) (r : Resolver) (ip : String) (raw : List String)
    (h1 : r.lookupAddr ip = Except.ok raw) :
    (handleIP z r ip).queries = Query.addr ip :: (lookupHosts r (namesOf z raw) []).2 := by
  simp only [handleIP, h1]
  split <;> rfl

theorem handleIP_hop_error (z : Bool) (r : Resolver) (ip e : String) (raw : List String)
    (h1 : r.lookupAddr ip = Except.ok raw)
    (h2 : (lookupHosts r (namesOf z raw) []).1 = Except.error e) :
    handleIP z r ip =
      ⟨"ERROR: " ++ e, "", false, Query.addr ip :: (lookupHosts r (namesOf z raw) []).2⟩ := by
  simp only [handleIP, h1, h2]

theorem handleIP_hop_ok (z : Bool) (r : Resolver) (ip : String) (raw ips : List String)
    (h1 : r.lookupAddr ip = Except.ok raw)
    (h2 : (lookupHosts r (namesOf z raw) []).1 = Except.ok ips) :
    handleIP z r ip =
      ⟨joinSpace (sortStrings ips), joinSpace (namesOf z raw), decide (ip ∈ ips),
        Query.addr ip :: (lookupHosts r (namesOf z raw) []).2⟩ := by
  simp only [handleIP, h1, h2]

theorem handleName_error (z : Bool) (r : Resolver) (name e : String)
    (h1 : r.lookupHost (normalize name) = Except.error e) :
    handleName z r name = ⟨"ERROR: " ++ e, "", false, [Query.host (normalize name)]⟩ := by
  simp only [handleName, h1]

theorem handleName_queries (z : Bool) (r : Resolver) (name : String) (raw : List String)
    (h1 : r.lookupHost (normalize name) = Except.ok raw) :
    (handleName z r name).queries =
      Query.host (normalize name) :: (lookupAddrs r (addrsOf z raw) []).2 := by
  simp only [handleName, h1]
  split <;> rfl

theorem handleName_hop_error (z : Bool) (r : Resolver) (name e : String) (raw : List String)
    (h1 : r.lookupHost (normalize name) = Except.ok raw)
    (h2 : (lookupAddrs r (addrsOf z raw) []).1 = Except.error e) :
    handleName z r name =
      ⟨"", "ERROR: " ++ e, false,
        Query.host (normalize name) :: (lookupAddrs r (addrsOf z raw) []).2⟩ := by
  simp only [handleName, h1, h2]

theorem handleName_hop_ok (z : Bool) (r : Resolver) (name : String) (raw hs : List String)
    (h1 : r.lookupHost (normalize name) = Except.ok raw)
    (h2 : (lookupAddrs r (addrsOf z raw) []).1 = Except.ok hs) :
    handleName z r name =
      ⟨joinSpace (addrsOf z raw), joinSpace (sortStrings hs), decide (normalize name ∈ hs),
        Query.host (normalize name) :: (lookupAddrs r (addrsOf z raw) []).2⟩ := by
  simp only [handleName, h1, h2]

theorem handleIP_failed (z : Bool) (r : Resolver) (ip : String) (q : Query) (e : String)
    (he : r.answer q = Except.error e) (hq : q ∈ (handleIP z r ip).queries) :
    EncodesFailure (handleIP z r ip) q e := by
  cases h1 : r.lookupAddr ip with
  | error e1 =>
    rw [handleIP_error z r ip e1 h1] at hq ⊢
    simp only [List.mem_singleton] at hq
    subst hq
    simp only [Resolver.answer, h1, Except.error.injEq] at he
    subst he
    simp [EncodesFailure]
  | ok raw =>
    rw [handleIP_queries z r ip raw h1] at hq
    rcases List.mem_cons.1 hq with rfl | hq2
    · simp [Resolver.answer, h1] at he
    · rw [lookupHosts_eq_walk] at hq2
      obtain ⟨k, _, rfl⟩ := walk_queries _ _ _ _ _ _ hq2
      have h2 := walk_failed_query r.lookupHost Query.host id host_injective _ _ k e hq2 he
      rw [← lookupHosts_eq_walk] at h2
      rw [handleIP_hop_error z r ip e raw h1 h2]
      simp [EncodesFailure]

theorem handleName_failed (z : Bool) (r : Resolver) (name : String) (q : Query) (e : String)
    (he : r.answer q = Except.error e) (hq : q ∈ (handleName z r name).queries) :
    EncodesFailure (handleName z r name) q e := by
  cases h1 : r.lookupHost (normalize name) with
  | error e1 =>
    rw [handleName_error z r name e1 h1] at hq ⊢
    simp only [List.mem_singleton] at hq
    subst hq
    simp only [Resolver.answer, h1, Except.error.injEq] at he
    subst he
    simp [EncodesFailure]
  | ok raw =>
    rw [handleName_queries z r name raw h1] at hq
    rcases List.mem_cons.1 hq with rfl | hq2
    · simp [Resolver.answer, h1] at he
    · rw [lookupAddrs_eq_walk] at hq2
      obtain ⟨k, _, rfl⟩ := walk_queries _ _ _ _ _ _ hq2
      have h2 := walk_failed_query r.lookupAddr Query.addr normalize addr_injective _ _ k e hq2 he
      rw [← lookupAddrs_eq_walk] at h2
      rw [handleName_hop_error z r name e raw h1 h2]
      simp [EncodesFailure]

/-- C4: whenever a lookup made by `handleIP` or `handleName` fails, the verdict is
false, the field of the failed direction is "ERROR: " followed by the error
text, and the other field is empty. -/
theorem lookup_failure_encoded (z : Bool) (r : Resolver) (input : String) (q : Query)
    (e : String) (he : r.answer q = Except.error e) :
    (q ∈ (handleIP z r input).queries → EncodesFailure (handleIP z r input) q e) ∧
    (q ∈ (handleName z r input).queries → EncodesFailure (handleName z r input) q e) :=
  ⟨handleIP_failed z r input q e he, handleName_failed z r input q e he⟩

/-- C4, witness: in `partialResolver` the lookup of `b.example` fails; it is the
second hop of `handleIP` and the first hop of `handleName`. -/
theorem lookup_failure_encoded_witness :
    partialResolver.answer (Query.host "b.example") = Except.error "lookup: no such host" ∧
    EncodesFailure (handleIP true partialResolver "192.0.2.5") (Query.host "b.example")
      "lookup: no such host" ∧
    EncodesFailure (handleName true partialResolver "b.example") (Query.host "b.example")
      "lookup: no such host" :=
  ⟨by decide,
   (lookup_failure_encoded true partialResolver "192.0.2.5" (Query.host "b.example")
      "lookup: no such host" (by decide)).1 (by decide),
   (lookup_failure_encoded true partialResolver "b.example" (Query.host "b.example")
      "lookup: no such host" (by decide)).2 (by decide)⟩

/-- C1 as amended: when the reverse lookup of `ip` and every forward lookup made by
`handleIP` succeed, the verdict is true exactly when `ip` is a member of the
union of the forward lookups of the normalised forms of the names returned by
the reverse lookup. -/
theorem handleIP_verdict (z : Bool) (r : Resolver) (ip : String) (raw : List String)
    (h1 : r.lookupAddr ip = Except.ok raw)
    (h2 : ∀ q ∈ (handleIP z r ip).queries, succeeded (r.answer q) = true) :
    (handleIP z r ip).ok = true ↔
      ∃ h ∈ raw, ∃ l, r.lookupHost (normalize h) = Except.ok l ∧ ip ∈ l := by
  rw [handleIP_queries z r ip raw h1] at h2
  have h3 : ∀ k, Query.host k ∈ (walk r.lookupHost Query.host id (namesOf z raw) []).2 →
      succeeded (r.lookupHost k) = true := by
    intro k hk
    rw [← lookupHosts_eq_walk] at hk
    exact h2 _ (List.mem_cons_of_mem _ hk)
  obtain ⟨ips, hips⟩ := walk_all_succeeded r.lookupHost Query.host id _ _ h3
  obtain ⟨hall, _, hmem⟩ := walk_ok r.lookupHost Query.host id _ _ _ hips
  rw [← lookupHosts_eq_walk] at hips
  rw [handleIP_hop_ok z r ip raw ips h1 hips]
  simp only [decide_eq_true_eq, hmem, List.not_mem_nil, false_or, List.map_id]
  constructor
  · rintro ⟨k, hk, l, hl, hx⟩
    rcases mem_namesOf z raw k hk with ⟨h, hh, rfl⟩ | rfl
    · exact ⟨h, hh, l, hl, hx⟩
    · obtain ⟨e, he⟩ := r.lookupHost_empty
      rw [he] at hl
      cases hl
  · rintro ⟨h, hh, l, hl, hx⟩
    exact ⟨normalize h, mem_namesOf_of_mem z raw h hh, l, hl, hx⟩

/-- C1, counterexample: in `caseResolver` every lookup succeeds and `192.0.2.5` is
among the addresses of `Host.Example.`, the name its reverse lookup returns,
yet the verdict is false, because `handleIP` looks up `host.example`. -/
theorem handleIP_verdict_counterexample :
    caseResolver.lookupAddr "192.0.2.5" = Except.ok ["Host.Example."] ∧
    (∀ q ∈ (handleIP false caseResolver "192.0.2.5").queries,
      succeeded (caseResolver.answer q) = true) ∧
    (∀ q ∈ (handleIP true caseResolver "192.0.2.5").queries,
      succeeded (caseResolver.answer q) = true) ∧
    (∃ h ∈ ["Host.Example."], ∃ l,
      caseResolver.lookupHost h = Except.ok l ∧ "192.0.2.5" ∈ l) ∧
    (handleIP false caseResolver "192.0.2.5").ok = false ∧
    (handleIP true caseResolver "192.0.2.5").ok = false :=
  ⟨by decide, by decide, by decide,
    ⟨"Host.Example.", by decide, ["192.0.2.5"], by decide, by decide⟩, by decide, by decide⟩

/-- C1 as amended, witness: the address of the end-to-end scenario. -/
theorem handleIP_verdict_witness :
    scenarioResolver.lookupAddr "192.0.2.5" = Except.ok ["example.com"] ∧
    ((handleIP true scenarioResolver "192.0.2.5").ok = true ↔
      ∃ h ∈ ["example.com"], ∃ l,
        scenarioResolver.lookupHost (normalize h) = Except.ok l ∧ "192.0.2.5" ∈ l) :=
  ⟨by decide,
    handleIP_verdict true scenarioResolver "192.0.2.5" ["example.com"] (by decide) (by decide)⟩

/-- C2: when the forward lookup of the normalised name and every reverse lookup
made by `handleName` succeed, the verdict is true exactly when the normalised
name is a member of the union of the normalised reverse lookups of the
addresses returned by the forward lookup. -/
theorem handleName_verdict (z : Bool) (r : Resolver) (name : String) (raw : List String)
    (h1 : r.lookupHost (normalize name) = Except.ok raw)
    (h2 : ∀ q ∈ (handleName z r name).queries, succeeded (r.answer q) = true) :
    (handleName z r name).ok = true ↔
      ∃ a ∈ raw, ∃ l, r.lookupAddr a = Except.ok l ∧ normalize name ∈ l.map normalize := by
  rw [handleName_queries z r name raw h1] at h2
  have h3 : ∀ k, Query.addr k ∈ (walk r.lookupAddr Query.addr normalize (addrsOf z raw) []).2 →
      succeeded (r.lookupAddr k) = true := by
    intro k hk
    rw [← lookupAddrs_eq_walk] at hk
    exact h2 _ (List.mem_cons_of_mem _ hk)
  obtain ⟨hs, hhs⟩ := walk_all_succeeded r.lookupAddr Query.addr normalize _ _ h3
  obtain ⟨hall, _, hmem⟩ := walk_ok r.lookupAddr Query.addr normalize _ _ _ hhs
  rw [← lookupAddrs_eq_walk] at hhs
  rw [handleName_hop_ok z r name raw hs h1 hhs]
  simp only [decide_eq_true_eq, hmem, List.not_mem_nil, false_or]
  constructor
  · rintro ⟨k, hk, l, hl, hx⟩
    rcases mem_addrsOf z raw k hk with hk | rfl
    · exact ⟨k, hk, l, hl, hx⟩
    · obtain ⟨e, he⟩ := r.lookupAddr_empty
      rw [he] at hl
      cases hl
  · rintro ⟨a, ha, l, hl, hx⟩
    exact ⟨a, mem_addrsOf_of_mem z raw a ha, l, hl, hx⟩

/-- C2, witness: the name of the end-to-end scenario, written in upper case with a
trailing dot. -/
theorem handleName_verdict_witness :
    scenarioResolver.lookupHost (normalize "Example.COM.") = Except.ok ["192.0.2.5"] ∧
    ((handleName true scenarioResolver "Example.COM.").ok = true ↔
      ∃ a ∈ ["192.0.2.5"], ∃ l,
        scenarioResolver.lookupAddr a = Except.ok l ∧
          normalize "Example.COM." ∈ l.map normalize) :=
  ⟨by decide,
    handleName_verdict true scenarioResolver "Example.COM." ["192.0.2.5"] (by decide)
      (by decide)⟩

/-- C5 as amended: when the forward lookup of the normalised name fails,
`handleName` returns the error marker in the forward field, an empty reverse
field and the verdict false, after that single lookup. -/
theorem handleName_first_hop_failure (z : Bool) (r : Resolver) (name e : String)
    (h : r.lookupHost (normalize name) = Except.error e) :
    handleName z r name = ⟨"ERROR: " ++ e, "", false, [Query.host (normalize name)]⟩ :=
  handleName_error z r name e h

/-- C5, counterexample: the forward lookup of `b.example` fails in
`partialResolver`; the reverse field is empty and the forward field is not. -/
theorem handleName_first_hop_failure_counterexample :
    partialResolver.lookupHost (normalize "b.example") = Except.error "lookup: no such host" ∧
    (handleName false partialResolver "b.example").reverse = "" ∧
    (handleName false partialResolver "b.example").forward = "ERROR: lookup: no such host" ∧
    (handleName true partialResolver "b.example").reverse = "" ∧
    (handleName true partialResolver "b.example").forward = "ERROR: lookup: no such host" :=
  ⟨by decide, by decide, by decide, by decide, by decide⟩

/-- C5 as amended, witness. -/
theorem handleName_first_hop_failure_witness :
    partialResolver.lookupHost (normalize "B.Example.") = Except.error "lookup: no such host" ∧
    handleName true partialResolver "B.Example." =
      ⟨"ERROR: " ++ "lookup: no such host", "", false, [Query.host (normalize "B.Example.")]⟩ :=
  ⟨by decide,
    handleName_first_hop_failure true partialResolver "B.Example." "lookup: no such host"
      (by decide)⟩

/-- C6 as amended: when the reverse lookup of `ip` succeeds and the forward lookup
of the normalised form of one of the names found fails, `handleIP` returns the
error marker of a failed forward lookup in the forward field, an empty reverse
field and the verdict false. -/
theorem handleIP_second_hop_fail_fast (z : Bool) (r : Resolver) (ip : String)
    (raw : List String) (h1 : r.lookupAddr ip = Except.ok raw)
    (h2 : ∃ h ∈ raw, succeeded (r.lookupHost (normalize h)) = false) :
    ∃ n e, r.lookupHost n = Except.error e ∧
      (handleIP z r ip).forward = "ERROR: " ++ e ∧
      (handleIP z r ip).reverse = "" ∧
      (handleIP z r ip).ok = false := by
  obtain ⟨h, hh, hfail⟩ := h2
  cases hw : (walk r.lookupHost Query.host id (namesOf z raw) []).1 with
  | ok ips =>
    obtain ⟨hall, _, _⟩ := walk_ok r.lookupHost Query.host id _ _ _ hw
    have := hall _ (mem_namesOf_of_mem z raw h hh)
    rw [this] at hfail
    cases hfail
  | error e =>
    obtain ⟨n, _, hn⟩ := walk_error r.lookupHost Query.host id _ _ _ hw
    rw [← lookupHosts_eq_walk] at hw
    rw [handleIP_hop_error z r ip e raw h1 hw]
    exact ⟨n, e, hn, rfl, rfl, rfl⟩

/-- C6, counterexample: in `partialResolver` the reverse lookup of `192.0.2.5`
gives `a.example`, which resolves to `192.0.2.5`, and `b.example`, which does
not resolve; the forward field of the result is the error marker, not empty.
In `lowerResolver` the name found, `Host.Example.`, does not resolve as it is
written, and `handleIP` does not abort. -/
theorem handleIP_second_hop_fail_fast_counterexample :
    partialResolver.lookupAddr "192.0.2.5" = Except.ok ["a.example", "b.example"] ∧
    succeeded (partialResolver.lookupHost "b.example") = false ∧
    (handleIP false partialResolver "192.0.2.5").forward = "ERROR: lookup: no such host" ∧
    (handleIP true partialResolver "192.0.2.5").forward = "ERROR: lookup: no such host" ∧
    lowerResolver.lookupAddr "192.0.2.7" = Except.ok ["Host.Example."] ∧
    succeeded (lowerResolver.lookupHost "Host.Example.") = false ∧
    (handleIP false lowerResolver "192.0.2.7").ok = true ∧
    (handleIP true lowerResolver "192.0.2.7").ok = true :=
  ⟨by decide, by decide, by decide, by decide, by decide, by decide, by decide, by decide⟩

/-- C6 as amended, witness: `partialResolver` and the address `192.0.2.5`. -/
theorem handleIP_second_hop_fail_fast_witness :
    partialResolver.lookupAddr "192.0.2.5" = Except.ok ["a.example", "b.example"] ∧
    ∃ n e, partialResolver.lookupHost n = Except.error e ∧
      (handleIP true partialResolver "192.0.2.5").forward = "ERROR: " ++ e ∧
      (handleIP true partialResolver "192.0.2.5").reverse = "" ∧
      (handleIP true partialResolver "192.0.2.5").ok = false :=
  ⟨by decide,
    handleIP_second_hop_fail_fast true partialResolver "192.0.2.5" ["a.example", "b.example"]
      (by decide) ⟨"b.example", by decide, by decide⟩⟩

/-- C3, evaluation at the failing input: `repeatingResolver` returns two names of
`192.0.2.5` that normalise to `a.example`, and the address of `a.example`
twice.  With the tail left in place the slices `names` and `addrs` keep the
repeated entry, which is joined into the reverse field of `handleIP` and the
forward field of `handleName`; with the tail zeroed they end in the empty
string, which is looked up, and the row is reported as a lookup failure. -/
theorem compact_result_dropped :
    namesOf false ["a.example", "A.Example."] = ["a.example", "a.example"] ∧
    addrsOf false ["192.0.2.5", "192.0.2.5"] = ["192.0.2.5", "192.0.2.5"] ∧
    namesOf true ["a.example", "A.Example."] = ["a.example", ""] ∧
    addrsOf true ["192.0.2.5", "192.0.2.5"] = ["192.0.2.5", ""] ∧
    handleIP false repeatingResolver "192.0.2.5" =
      ⟨"192.0.2.5", "a.example a.example", true,
        [Query.addr "192.0.2.5", Query.host "a.example", Query.host "a.example"]⟩ ∧
    handleName false repeatingResolver "a.example" =
      ⟨"192.0.2.5 192.0.2.5", "a.example", true,
        [Query.host "a.example", Query.addr "192.0.2.5", Query.addr "192.0.2.5"]⟩ ∧
    handleIP true repeatingResolver "192.0.2.5" =
      ⟨"ERROR: lookup: no such host", "", false,
        [Query.addr "192.0.2.5", Query.host "a.example", Query.host ""]⟩ ∧
    handleName true repeatingResolver "a.example" =
      ⟨"", "ERROR: lookup: no such host", false,
        [Query.host "a.example", Query.addr "192.0.2.5", Query.addr ""]⟩ :=
  ⟨by decide, by decide, by decide, by decide, by decide, by decide, by decide, by decide⟩

/-! ## The row loop -/

theorem resolveInput_eq_none (z : Bool) (parseIP : String → Option String) (r : Resolver)
    (input : String) :
    resolveInput z parseIP r input = none ↔ unclassified parseIP input = true := by
  unfold resolveInput unclassified
  cases parseIP input with
  | some ip => simp
  | none => cases h : matchString input <;> simp [h]

theorem rowLoop_eq (z : Bool) (parseIP : String → Option String) (r : Resolver) (inCol : Nat)
    (rows : List (List String)) (hw : ∀ row ∈ rows, inCol < row.length) :
    ∀ acc : Rows, rowLoop z parseIP r inCol rows acc = some
      ⟨acc.processedRows ++ rows.filterMap (outputRow z parseIP r inCol),
       acc.discardedRows ++
         rows.filter (fun row => unclassified parseIP (selectedValue inCol row)),
       acc.queries ++ (rows.map (rowQueries z parseIP r inCol)).flatten⟩ := by
  induction rows with
  | nil => intro acc; simp [rowLoop]
  | cons record rest ih =>
    intro acc
    have hlt : inCol < record.length := hw record (List.mem_cons_self _ _)
    have hget : record[inCol]? = some (record.getD inCol "") := by
      rw [List.getD_eq_getElem?_getD, List.getElem?_eq_getElem hlt]
      rfl
    have ih' := ih (fun row hrow => hw row (List.mem_cons_of_mem _ hrow))
    simp only [rowLoop, hget]
    rw [show trimSpace (record.getD inCol "") = selectedValue inCol record from rfl]
    cases hres : resolveInput z parseIP r (selectedValue inCol record) with
    | none =>
      have hu : unclassified parseIP (selectedValue inCol record) = true :=
        (resolveInput_eq_none z parseIP r _).1 hres
      simp only [ih', List.filterMap_cons, outputRow, hres, Option.map_none',
        List.filter_cons, hu, if_true, List.map_cons, rowQueries, List.flatten_cons,
        List.nil_append, List.append_assoc, List.singleton_append]
    | some o =>
      have hu : unclassified parseIP (selectedValue inCol record) = false := by
        cases h : unclassified parseIP (selectedValue inCol record)
        · rfl
        · rw [(resolveInput_eq_none z parseIP r _).2 h] at hres
          cases hres
      simp only [ih', List.filterMap_cons, outputRow, hres, Option.map_some',
        List.filter_cons, hu, Bool.false_eq_true, if_false, List.map_cons, rowQueries,
        List.flatten_cons, List.append_assoc, List.singleton_append, extendRecord]

theorem outputRow_eq_none (z : Bool) (parseIP : String → Option String) (r : Resolver)
    (inCol : Nat) (row : List String) :
    outputRow z parseIP r inCol row = none ↔
      unclassified parseIP (selectedValue inCol row) = true := by
  rw [← resolveInput_eq_none z parseIP r]
  simp [outputRow]

theorem length_filterMap_add_filter {α β : Type} (f : α → Option β) (p : α → Bool)
    (h : ∀ a, f a = none ↔ p a = true) (l : List α) :
    (l.filterMap f).length + (l.filter p).length = l.length := by
  induction l with
  | nil => rfl
  | cons a rest ih =>
    cases hp : p a
    · cases hf : f a with
      | none => rw [(h a).1 hf] at hp; cases hp
      | some b =>
        simp only [List.filterMap_cons, hf, List.filter_cons, hp, Bool.false_eq_true,
          if_false, List.length_cons]
        omega
    · simp only [List.filterMap_cons, (h a).2 hp, List.filter_cons, hp, if_true,
        List.length_cons]
      omega

/-- C7: on data rows of the header's width and an input column inside the header,
the row loop ends; the discarded rows are the rows whose trimmed value neither
parses as an IP address nor matches the hostname pattern, in input order; the
processed rows are the output rows of the other rows, in input order; a row
has no output row exactly when it is discarded, whatever the resolver answers;
an output row is the record followed by exactly three fields of which the last
is "yes" or "no"; and the two lists together have as many rows as the input. -/
theorem rowLoop_one_outcome_per_row (z : Bool) (parseIP : String → Option String)
    (r : Resolver) (header : List String) (rows : List (List String)) (inCol : Nat)
    (hcol : inCol < header.length) (hw : ∀ row ∈ rows, row.length = header.length) :
    ∃ out, rowLoop z parseIP r inCol rows ⟨[], [], []⟩ = some out ∧
      out.discardedRows =
        rows.filter (fun row => unclassified parseIP (selectedValue inCol row)) ∧
      out.processedRows = rows.filterMap (outputRow z parseIP r inCol) ∧
      (∀ row, outputRow z parseIP r inCol row = none ↔
        unclassified parseIP (selectedValue inCol row) = true) ∧
      (∀ row, unclassified parseIP (selectedValue inCol row) = false →
        ∃ o : Outcome, outputRow z parseIP r inCol row =
          some (row ++ [o.forward, o.reverse, roundtripOK o.ok]) ∧
          (roundtripOK o.ok = "yes" ∨ roundtripOK o.ok = "no")) ∧
      out.processedRows.length + out.discardedRows.length = rows.length := by
  have hw' : ∀ row ∈ rows, inCol < row.length := fun row hrow => by
    rw [hw row hrow]; exact hcol
  refine ⟨_, rowLoop_eq z parseIP r inCol rows hw' ⟨[], [], []⟩, ?_, ?_, ?_, ?_, ?_⟩
  · simp
  · simp
  · exact outputRow_eq_none z parseIP r inCol
  · intro row hu
    cases hres : resolveInput z parseIP r (selectedValue inCol row) with
    | none =>
      rw [(resolveInput_eq_none z parseIP r _).1 hres] at hu
      cases hu
    | some o =>
      refine ⟨o, by simp [outputRow, hres, extendRecord], ?_⟩
      cases o.ok <;> simp [roundtripOK]
  · simp only [List.nil_append]
    exact length_filterMap_add_filter _ _ (outputRow_eq_none z parseIP r inCol) rows

/-! ## The end-to-end scenario -/

theorem matchString_example_com : matchString "example.com" = true := by
  decide

theorem matchString_bad_host : matchString "bad host" = false := by
  decide

theorem compactInPlace_singleton (z : Bool) (a : String) : compactInPlace z [a] = [a] := by
  cases z <;> simp [compactInPlace, compactPrefix]

theorem scenario_handleName (z : Bool) (r : Resolver)
    (hf : r.lookupHost "example.com" = Except.ok ["192.0.2.5"])
    (hr : r.lookupAddr "192.0.2.5" = Except.ok ["example.com"]) :
    handleName z r "example.com" =
      ⟨"192.0.2.5", "example.com", true,
        [Query.host "example.com", Query.addr "192.0.2.5"]⟩ := by
  have hn : normalize "example.com" = "example.com" := by decide
  have ha : addrsOf z ["192.0.2.5"] = ["192.0.2.5"] := by
    simp [addrsOf, sortStrings, compactInPlace_singleton]
  have hl : lookupAddrs r ["192.0.2.5"] [] =
      (Except.ok ["example.com"], [Query.addr "192.0.2.5"]) := by
    simp only [lookupAddrs, hr]
    have : insertAll [] (List.map normalize ["example.com"]) = ["example.com"] := by decide
    rw [this]
  rw [← hn] at hf
  rw [handleName_hop_ok z r "example.com" ["192.0.2.5"] ["example.com"] hf (by rw [ha, hl])]
  rw [ha, hl, hn]
  have h1 : joinSpace ["192.0.2.5"] = "192.0.2.5" := by decide
  have h2 : joinSpace (sortStrings ["example.com"]) = "example.com" := by decide
  rw [h1, h2]
  simp

theorem scenario_handleIP (z : Bool) (r : Resolver)
    (hf : r.lookupHost "example.com" = Except.ok ["192.0.2.5"])
    (hr : r.lookupAddr "192.0.2.5" = Except.ok ["example.com"]) :
    handleIP z r "192.0.2.5" =
      ⟨"192.0.2.5", "example.com", true,
        [Query.addr "192.0.2.5", Query.host "example.com"]⟩ := by
  have hn : namesOf z ["example.com"] = ["example.com"] := by
    have : List.map normalize ["example.com"] = ["example.com"] := by decide
    rw [namesOf, this]
    simp [sortStrings, compactInPlace_singleton]
  have hl : lookupHosts r ["example.com"] [] =
      (Except.ok ["192.0.2.5"], [Query.host "example.com"]) := by
    simp only [lookupHosts, hf]
    have : insertAll [] ["192.0.2.5"] = ["192.0.2.5"] := by decide
    rw [this]
  rw [handleIP_hop_ok z r "192.0.2.5" ["example.com"] ["192.0.2.5"] hr (by rw [hn, hl])]
  rw [hn, hl]
  have h1 : joinSpace ["example.com"] = "example.com" := by decide
  have h2 : joinSpace (sortStrings ["192.0.2.5"]) = "192.0.2.5" := by decide
  rw [h1, h2]
  simp

/-- C8: header `id,host`, rows `1,example.com`, `2,192.0.2.5`, `3,bad host`, the
host column (index 1) as input, a resolver in which `example.com` has the
address `192.0.2.5` whose name is `example.com`: the row loop yields two
processed rows, both extended with `192.0.2.5`, `example.com`, `yes`, and one
discarded row, row 3, for which no lookup is made. -/
theorem end_to_end_scenario (z : Bool) (parseIP : String → Option String) (r : Resolver)
    (hp1 : parseIP "example.com" = none) (hp2 : parseIP "192.0.2.5" = some "192.0.2.5")
    (hp3 : parseIP "bad host" = none)
    (hf : r.lookupHost "example.com" = Except.ok ["192.0.2.5"])
    (hr : r.lookupAddr "192.0.2.5" = Except.ok ["example.com"]) :
    rowLoop z parseIP r 1
        [["1", "example.com"], ["2", "192.0.2.5"], ["3", "bad host"]] ⟨[], [], []⟩ =
      some
        ⟨[["1", "example.com", "192.0.2.5", "example.com", "yes"],
          ["2", "192.0.2.5", "192.0.2.5", "example.com", "yes"]],
         [["3", "bad host"]],
         [Query.host "example.com", Query.addr "192.0.2.5",
          Query.addr "192.0.2.5", Query.host "example.com"]⟩ ∧
    resolveInput z parseIP r (trimSpace "bad host") = none := by
  have t1 : trimSpace "example.com" = "example.com" := by decide
  have t2 : trimSpace "192.0.2.5" = "192.0.2.5" := by decide
  have t3 : trimSpace "bad host" = "bad host" := by decide
  have r1 : resolveInput z parseIP r "example.com" = some (handleName z r "example.com") := by
    simp [resolveInput, hp1, matchString_example_com]
  have r2 : resolveInput z parseIP r "192.0.2.5" = some (handleIP z r "192.0.2.5") := by
    simp [resolveInput, hp2]
  have r3 : resolveInput z parseIP r "bad host" = none := by
    simp [resolveInput, hp3, matchString_bad_host]
  refine ⟨?_, by rw [t3, r3]⟩
  simp only [rowLoop, List.getElem?_cons_succ, List.getElem?_cons_zero, t1, t2, t3, r1, r2, r3,
    scenario_handleName z r hf hr, scenario_handleIP z r hf hr, roundtripOK]
  simp

/-- C8, witness: the resolver of the scenario and the dotted-decimal parser. -/
theorem end_to_end_scenario_witness :
    rowLoop true dottedQuad scenarioResolver 1
        [["1", "example.com"], ["2", "192.0.2.5"], ["3", "bad host"]] ⟨[], [], []⟩ =
      some
        ⟨[["1", "example.com", "192.0.2.5", "example.com", "yes"],
          ["2", "192.0.2.5", "192.0.2.5", "example.com", "yes"]],
         [["3", "bad host"]],
         [Query.host "example.com", Query.addr "192.0.2.5",
          Query.addr "192.0.2.5", Query.host "example.com"]⟩ ∧
    resolveInput true dottedQuad scenarioResolver (trimSpace "bad host") = none :=
  end_to_end_scenario true dottedQuad scenarioResolver (by decide) (by decide) (by decide)
    (by decide) (by decide)

/-- C7, witness: the rows of the end-to-end scenario under a header of two columns. -/
theorem rowLoop_one_outcome_per_row_witness :
    (1 < ["id", "host"].length) ∧
    (∀ row ∈ [["1", "example.com"], ["2", "192.0.2.5"], ["3", "bad host"]],
      row.length = ["id", "host"].length) ∧
    ∃ out, rowLoop true dottedQuad partialResolver 1
        [["1", "example.com"], ["2", "192.0.2.5"], ["3", "bad host"]] ⟨[], [], []⟩ = some out ∧
      out.discardedRows =
        [["1", "example.com"], ["2", "192.0.2.5"], ["3", "bad host"]].filter
          (fun row => unclassified dottedQuad (selectedValue 1 row)) ∧
      out.processedRows =
        [["1", "example.com"], ["2", "192.0.2.5"], ["3", "bad host"]].filterMap
          (outputRow true dottedQuad partialResolver 1) ∧
      (∀ row, outputRow true dottedQuad partialResolver 1 row = none ↔
        unclassified dottedQuad (selectedValue 1 row) = true) ∧
      (∀ row, unclassified dottedQuad (selectedValue 1 row) = false →
        ∃ o : Outcome, outputRow true dottedQuad partialResolver 1 row =
          some (row ++ [o.forward, o.reverse, roundtripOK o.ok]) ∧
          (roundtripOK o.ok = "yes" ∨ roundtripOK o.ok = "no")) ∧
      out.processedRows.length + out.discardedRows.length =
        [["1", "example.com"], ["2", "192.0.2.5"], ["3", "bad host"]].length :=
  ⟨by decide, by decide,
    rowLoop_one_outcome_per_row true dottedQuad partialResolver ["id", "host"]
      [["1", "example.com"], ["2", "192.0.2.5"], ["3", "bad host"]] 1 (by decide) (by decide)⟩

/-! ## The output header -/

theorem digitChar_value (d : Nat) (hd : d < 10) : (Nat.digitChar d).toNat - 48 = d := by
  interval_cases d <;> rfl

theorem foldl_toDigitsCore (fuel : Nat) :
    ∀ (n : Nat) (ds : List Char), n < fuel →
      (Nat.toDigitsCore 10 fuel n ds).foldl (fun a c => 10 * a + (c.toNat - 48)) 0 =
        ds.foldl (fun a c => 10 * a + (c.toNat - 48)) n := by
  induction fuel with
  | zero => intro n ds h; omega
  | succ fuel ih =>
    intro n ds h
    have hd := digitChar_value (n % 10) (Nat.mod_lt _ (by decide))
    by_cases h0 : n / 10 = 0
    · simp only [Nat.toDigitsCore, h0, if_true, List.foldl_cons, hd]
      congr 1
      omega
    · simp only [Nat.toDigitsCore, h0, if_false]
      rw [ih (n / 10) _ (by omega)]
      simp only [List.foldl_cons, hd]
      congr 1
      omega

theorem decimalValue_repr (n : Nat) : decimalValue (Nat.repr n).data = n := by
  unfold decimalValue Nat.repr Nat.toDigits
  exact foldl_toDigitsCore (n + 1) n [] (by omega)

theorem repr_injective (a b : Nat) (h : Nat.repr a = Nat.repr b) : a = b := by
  rw [← decimalValue_repr a, ← decimalValue_repr b, h]

theorem suffixed_injective (colName : String) (a b : Nat)
    (h : suffixed colName a = suffixed colName b) : a = b := by
  apply repr_injective
  unfold suffixed at h
  have h' := congrArg String.data h
  simp only [String.data_append, List.append_cancel_left_eq] at h'
  exact String.ext h'

theorem findSpin_spec (names : List String) (colName : String) (fuel : Nat) :
    ∀ (spin : Nat) (l : List String),
      (∀ j, spin ≤ j → suffixed colName j ∈ names → suffixed colName j ∈ l) →
      l.length < fuel →
      ∃ k, findSpin names colName fuel spin = some k ∧ spin ≤ k ∧
        suffixed colName k ∉ names ∧
        ∀ j, spin ≤ j → j < k → suffixed colName j ∈ names := by
  induction fuel with
  | zero => intro spin l _ h; omega
  | succ fuel ih =>
    intro spin l hl hlen
    by_cases hmem : suffixed colName spin ∈ names
    · have hin : suffixed colName spin ∈ l := hl spin (le_refl _) hmem
      have hlen' : (l.erase (suffixed colName spin)).length < fuel := by
        rw [List.length_erase_of_mem hin]
        have : 0 < l.length := List.length_pos_of_mem hin
        omega
      obtain ⟨k, hk, hle, hnot, hleast⟩ := ih (spin + 1) (l.erase (suffixed colName spin))
        (fun j hj hjn => by
          have hne : suffixed colName j ≠ suffixed colName spin := by
            intro he
            have := suffixed_injective colName j spin he
            omega
          exact (List.mem_erase_of_ne hne).2 (hl j (by omega) hjn)) hlen'
      refine ⟨k, ?_, by omega, hnot, ?_⟩
      · simp [findSpin, hmem, hk]
      · intro j hj hjk
        by_cases hjs : j = spin
        · rw [hjs]; exact hmem
        · exact hleast j (by omega) hjk
    · refine ⟨spin, ?_, le_refl _, hmem, fun j hj hjk => by omega⟩
      simp [findSpin, hmem]

theorem IsFreeName.not_mem {names : List String} {base name : String}
    (h : IsFreeName names base name) : name ∉ names := by
  rcases h with ⟨h1, rfl⟩ | ⟨_, k, _, rfl, h2, _⟩
  · exact h1
  · exact h2

theorem IsFreeName.isPrefix {names : List String} {base name : String}
    (h : IsFreeName names base name) : base.data <+: name.data := by
  rcases h with ⟨_, rfl⟩ | ⟨_, k, _, rfl, _, _⟩
  · exact List.prefix_refl _
  · simp only [suffixed, String.data_append, List.append_assoc]
    exact List.prefix_append _ _

theorem addColumn_spec (fuel : Nat) (names : List String) (base : String)
    (hfuel : names.length < fuel) :
    ∃ name, addColumn fuel names base = some (names ++ [name]) ∧
      IsFreeName names base name := by
  by_cases hmem : base ∈ names
  · obtain ⟨k, hk, hle, hnot, hleast⟩ :=
      findSpin_spec names base fuel 1 names (fun _ _ h => h) hfuel
    refine ⟨suffixed base k, ?_, Or.inr ⟨hmem, k, hle, rfl, hnot, hleast⟩⟩
    simp [addColumn, hmem, hk]
  · exact ⟨base, by simp [addColumn, hmem], Or.inl ⟨hmem, rfl⟩⟩

/-- C9: the output header is the input header followed by three names, one for
each of `ips_from_forward_dns`, `hostnames_from_reverse_dns` and
`roundtrip_ok` in that order; each is the base name when the header built so
far does not contain it and otherwise `base_k` for the least `k ≥ 1` that is
free; the search ends within as many tests as the header has names plus one;
the three names are pairwise distinct and not in the input header; a header
with `roundtrip_ok` and without `roundtrip_ok_1` gets `roundtrip_ok_1`. -/
theorem newColNames_spec (colNames : List String) (fuel : Nat)
    (hfuel : colNames.length + 2 < fuel) :
    ∃ n1 n2 n3, newColNames fuel colNames = some (colNames ++ [n1, n2, n3]) ∧
      IsFreeName colNames "ips_from_forward_dns" n1 ∧
      IsFreeName (colNames ++ [n1]) "hostnames_from_reverse_dns" n2 ∧
      IsFreeName (colNames ++ [n1, n2]) "roundtrip_ok" n3 ∧
      n1 ≠ n2 ∧ n1 ≠ n3 ∧ n2 ≠ n3 ∧ n1 ∉ colNames ∧ n2 ∉ colNames ∧ n3 ∉ colNames ∧
      ("roundtrip_ok" ∈ colNames → "roundtrip_ok_1" ∉ colNames → n3 = "roundtrip_ok_1") := by
  obtain ⟨n1, h1, f1⟩ := addColumn_spec fuel colNames "ips_from_forward_dns" (by omega)
  obtain ⟨n2, h2, f2⟩ := addColumn_spec fuel (colNames ++ [n1]) "hostnames_from_reverse_dns"
    (by simp; omega)
  obtain ⟨n3, h3, f3⟩ := addColumn_spec fuel (colNames ++ [n1] ++ [n2]) "roundtrip_ok"
    (by simp; omega)
  have e3 : colNames ++ [n1] ++ [n2] = colNames ++ [n1, n2] := by simp
  rw [e3] at h3 f3
  have m2 := f2.not_mem
  have m3 := f3.not_mem
  simp only [List.mem_append, List.mem_singleton, List.mem_cons, List.not_mem_nil, or_false,
    not_or] at m2 m3
  refine ⟨n1, n2, n3, ?_, f1, f2, f3, fun h => m2.2 h.symm, fun h => m3.2.1 h.symm,
    fun h => m3.2.2 h.symm, f1.not_mem, m2.1, m3.1, ?_⟩
  · simp only [newColNames, h1, h2]
    rw [e3, h3]
    simp
  · intro hin hnot
    have hs : suffixed "roundtrip_ok" 1 = "roundtrip_ok_1" := by decide
    have p1 := f1.isPrefix
    have p2 := f2.isPrefix
    have q1 : ¬ ("ips_from_forward_dns".data <+: "roundtrip_ok_1".data) := by decide
    have q2 : ¬ ("hostnames_from_reverse_dns".data <+: "roundtrip_ok_1".data) := by decide
    have hfree : suffixed "roundtrip_ok" 1 ∉ colNames ++ [n1, n2] := by
      rw [hs]
      simp only [List.mem_append, List.mem_cons, List.not_mem_nil, or_false, not_or]
      refine ⟨hnot, ?_, ?_⟩
      · intro h; rw [← h] at p1; exact q1 p1
      · intro h; rw [← h] at p2; exact q2 p2
    rcases f3 with ⟨hno, _⟩ | ⟨_, k, hk1, rfl, _, hleast⟩
    · exact absurd (List.mem_append_left _ hin) hno
    · by_cases hk : k = 1
      · rw [hk, hs]
      · exact absurd (hleast 1 (le_refl _) (by omega)) hfree

/-- C9, witness: a header that has `roundtrip_ok` and `ips_from_forward_dns`. -/
theorem newColNames_spec_witness :
    (["id", "roundtrip_ok", "ips_from_forward_dns"].length + 2 < 6) ∧
    newColNames 6 ["id", "roundtrip_ok", "ips_from_forward_dns"] =
      some ["id", "roundtrip_ok", "ips_from_forward_dns", "ips_from_forward_dns_1",
        "hostnames_from_reverse_dns", "roundtrip_ok_1"] ∧
    ∃ n1 n2 n3, newColNames 6 ["id", "roundtrip_ok", "ips_from_forward_dns"] =
        some (["id", "roundtrip_ok", "ips_from_forward_dns"] ++ [n1, n2, n3]) ∧
      IsFreeName ["id", "roundtrip_ok", "ips_from_forward_dns"] "ips_from_forward_dns" n1 ∧
      IsFreeName (["id", "roundtrip_ok", "ips_from_forward_dns"] ++ [n1])
        "hostnames_from_reverse_dns" n2 ∧
      IsFreeName (["id", "roundtrip_ok", "ips_from_forward_dns"] ++ [n1, n2])
        "roundtrip_ok" n3 ∧
      n1 ≠ n2 ∧ n1 ≠ n3 ∧ n2 ≠ n3 ∧
      n1 ∉ ["id", "roundtrip_ok", "ips_from_forward_dns"] ∧
      n2 ∉ ["id", "roundtrip_ok", "ips_from_forward_dns"] ∧
      n3 ∉ ["id", "roundtrip_ok", "ips_from_forward_dns"] ∧
      ("roundtrip_ok" ∈ ["id", "roundtrip_ok", "ips_from_forward_dns"] →
        "roundtrip_ok_1" ∉ ["id", "roundtrip_ok", "ips_from_forward_dns"] →
        n3 = "roundtrip_ok_1") :=
  ⟨by decide, by decide,
    newColNames_spec ["id", "roundtrip_ok", "ips_from_forward_dns"] 6 (by decide)⟩

/-! ## The hostname pattern -/

open RegularExpression

theorem isLabelChar_of_mem : ∀ c ∈ labelChars, isLabelChar c = true := by
  decide

theorem ofNat_mem_labelChars :
    ∀ n < 123, isLabelChar (Char.ofNat n) = true → Char.ofNat n ∈ labelChars := by
  decide

theorem mem_labelChars (c : Char) : c ∈ labelChars ↔ isLabelChar c = true := by
  refine ⟨isLabelChar_of_mem c, fun h => ?_⟩
  have hlt : c.toNat < 123 := by
    simp only [isLabelChar, isLetterDigitHyphen, Bool.or_eq_true, Bool.and_eq_true,
      decide_eq_true_eq] at h
    omega
  have hc : Char.ofNat c.toNat = c := Char.ofNat_toNat c
  have := ofNat_mem_labelChars c.toNat hlt (by rw [hc]; exact h)
  rwa [hc] at this

theorem mem_oneOf (cs : List Char) (x : List Char) :
    x ∈ (oneOf cs).matches' ↔ ∃ c ∈ cs, x = [c] := by
  induction cs with
  | nil =>
    simp only [oneOf, List.foldr_nil, matches'_zero, List.not_mem_nil, false_and, exists_false,
      iff_false]
    exact fun h => h
  | cons a rest ih =>
    have : oneOf (a :: rest) = char a + oneOf rest := rfl
    rw [this, matches'_add, Language.mem_add, ih, matches'_char]
    constructor
    · rintro (h | ⟨c, hc, rfl⟩)
      · exact ⟨a, List.mem_cons_self _ _, h⟩
      · exact ⟨c, List.mem_cons_of_mem _ hc, rfl⟩
    · rintro ⟨c, hc, rfl⟩
      rcases List.mem_cons.1 hc with rfl | hc
      · exact Or.inl rfl
      · exact Or.inr ⟨c, hc, rfl⟩

theorem mem_atMost (cs : List Char) (n : Nat) :
    ∀ x : List Char, x ∈ (atMost (oneOf cs) n).matches' ↔ x.length ≤ n ∧ ∀ c ∈ x, c ∈ cs := by
  induction n with
  | zero =>
    intro x
    have : atMost (oneOf cs) 0 = 1 := rfl
    rw [this, matches'_epsilon, Language.mem_one]
    constructor
    · rintro rfl; simp
    · rintro ⟨h, _⟩; exact List.length_eq_zero.1 (Nat.le_zero.1 h)
  | succ n ih =>
    intro x
    have : atMost (oneOf cs) (n + 1) = 1 + oneOf cs * atMost (oneOf cs) n := rfl
    rw [this, matches'_add, matches'_epsilon, matches'_mul, Language.mem_add, Language.mem_one,
      Language.mem_mul]
    constructor
    · rintro (rfl | ⟨a, ha, b, hb, rfl⟩)
      · simp
      · obtain ⟨c, hc, rfl⟩ := (mem_oneOf cs a).1 ha
        obtain ⟨hlen, hall⟩ := (ih b).1 hb
        refine ⟨by simp; omega, ?_⟩
        intro d hd
        rcases List.mem_cons.1 hd with rfl | hd
        · exact hc
        · exact hall d hd
    · rintro ⟨hlen, hall⟩
      cases x with
      | nil => exact Or.inl rfl
      | cons c rest =>
        refine Or.inr ⟨[c], (mem_oneOf cs _).2 ⟨c, hall c (List.mem_cons_self _ _), rfl⟩, rest,
          (ih rest).2 ⟨by simp at hlen; omega, fun d hd => hall d (List.mem_cons_of_mem _ hd)⟩,
          rfl⟩

theorem mem_labelRe (x : List Char) : x ∈ labelRe.matches' ↔ IsLabel isLabelChar x := by
  have : labelRe = oneOf labelChars * atMost (oneOf labelChars) 62 := rfl
  rw [this, matches'_mul, Language.mem_mul]
  constructor
  · rintro ⟨a, ha, b, hb, rfl⟩
    obtain ⟨c, hc, rfl⟩ := (mem_oneOf _ a).1 ha
    obtain ⟨hlen, hall⟩ := (mem_atMost _ _ b).1 hb
    refine ⟨by simp, by simp; omega, ?_⟩
    intro d hd
    rcases List.mem_cons.1 hd with rfl | hd
    · exact (mem_labelChars _).1 hc
    · exact (mem_labelChars _).1 (hall d hd)
  · rintro ⟨h1, h63, hall⟩
    cases x with
    | nil => simp at h1
    | cons c rest =>
      refine ⟨[c], (mem_oneOf _ _).2 ⟨c, (mem_labelChars _).2 (hall c (List.mem_cons_self _ _)),
        rfl⟩, rest, (mem_atMost _ _ rest).2 ⟨by simp at h63; omega, fun d hd =>
          (mem_labelChars _).2 (hall d (List.mem_cons_of_mem _ hd))⟩, rfl⟩

theorem mem_dotLabelRe (x : List Char) :
    x ∈ dotLabelRe.matches' ↔ ∃ l, IsLabel isLabelChar l ∧ x = '.' :: l := by
  have : dotLabelRe = char '.' * labelRe := rfl
  rw [this, matches'_mul, Language.mem_mul, matches'_char]
  constructor
  · rintro ⟨a, ha, b, hb, rfl⟩
    have ha' : a = ['.'] := ha
    subst ha'
    exact ⟨b, (mem_labelRe b).1 hb, rfl⟩
  · rintro ⟨l, hl, rfl⟩
    exact ⟨['.'], rfl, l, (mem_labelRe l).2 hl, rfl⟩

theorem intercalate_dot_cons (l0 : List Char) (rest : List (List Char)) :
    ['.'].intercalate (l0 :: rest) = l0 ++ (rest.map (fun l => '.' :: l)).flatten := by
  induction rest generalizing l0 with
  | nil => simp [List.intercalate]
  | cons l1 rest ih =>
    have h := ih l1
    simp only [List.intercalate, List.intersperse_cons₂, List.flatten_cons, List.map_cons,
      List.singleton_append] at h ⊢
    rw [h]
    simp

theorem dotted_labels (allowed : Char → Bool) (L : List (List Char))
    (h : ∀ y ∈ L, ∃ l, IsLabel allowed l ∧ y = '.' :: l) :
    ∃ L' : List (List Char), (∀ l ∈ L', IsLabel allowed l) ∧ L = L'.map (fun l => '.' :: l) := by
  induction L with
  | nil => exact ⟨[], by simp, rfl⟩
  | cons y rest ih =>
    obtain ⟨l, hl, rfl⟩ := h y (List.mem_cons_self _ _)
    obtain ⟨L', hL', rfl⟩ := ih (fun y hy => h y (List.mem_cons_of_mem _ hy))
    refine ⟨l :: L', ?_, rfl⟩
    intro l' hl'
    rcases List.mem_cons.1 hl' with rfl | hl'
    · exact hl
    · exact hL' l' hl'

theorem mem_hostnameRe (x : List Char) :
    x ∈ hostnameRe.matches' ↔
      ∃ labels : List (List Char), 2 ≤ labels.length ∧
        (∀ l ∈ labels, IsLabel isLabelChar l) ∧
        (x = ['.'].intercalate labels ∨ x = ['.'].intercalate labels ++ ['.']) := by
  have : hostnameRe = labelRe * (dotLabelRe * star dotLabelRe) * (1 + char '.') := rfl
  rw [this]
  simp only [matches'_mul, matches'_add, matches'_star, matches'_epsilon, matches'_char,
    Language.mem_mul, Language.mem_add, Language.mem_one, Language.mem_kstar]
  constructor
  · rintro ⟨u, ⟨a, ha, v, ⟨b, hb, c, ⟨L, rfl, hL⟩, rfl⟩, rfl⟩, t, ht, rfl⟩
    obtain ⟨l1, hl1, rfl⟩ := (mem_dotLabelRe b).1 hb
    obtain ⟨L', hL', rfl⟩ := dotted_labels isLabelChar L
      (fun y hy => (mem_dotLabelRe y).1 (hL y hy))
    refine ⟨a :: l1 :: L', by simp, ?_, ?_⟩
    · intro l hl
      rcases List.mem_cons.1 hl with rfl | hl
      · exact (mem_labelRe _).1 ha
      · rcases List.mem_cons.1 hl with rfl | hl
        · exact hl1
        · exact hL' l hl
    · rw [intercalate_dot_cons]
      rcases ht with rfl | ht
      · left; simp
      · right
        have ht' : t = ['.'] := ht
        subst ht'
        simp
  · rintro ⟨labels, hlen, hall, hx⟩
    match labels, hlen, hall with
    | l0 :: l1 :: L', _, hall =>
      rw [intercalate_dot_cons] at hx
      refine ⟨l0 ++ (('.' :: l1) ++ (L'.map (fun l => '.' :: l)).flatten),
        ⟨l0, (mem_labelRe _).2 (hall l0 (by simp)), _,
          ⟨'.' :: l1, (mem_dotLabelRe _).2 ⟨l1, hall l1 (by simp), rfl⟩, _,
            ⟨L'.map (fun l => '.' :: l), rfl, ?_⟩, rfl⟩, rfl⟩, ?_⟩
      · intro y hy
        obtain ⟨l, hl, rfl⟩ := List.mem_map.1 hy
        exact (mem_dotLabelRe _).2 ⟨l, hall l (by simp [hl]), rfl⟩
      · rcases hx with rfl | rfl
        · exact ⟨[], Or.inl rfl, by simp⟩
        · exact ⟨['.'], Or.inr rfl, by simp⟩

theorem matchString_iff (input : String) :
    matchString input = true ↔ IsHostname isLabelChar input := by
  unfold matchString IsHostname
  rw [rmatch_iff_matches', mem_hostnameRe]

theorem IsHostname.chars {allowed : Char → Bool} {s : String} (h : IsHostname allowed s) :
    ∀ c ∈ s.data, allowed c = true ∨ c = '.' := by
  obtain ⟨labels, hlen, hall, hs⟩ := h
  have key : ∀ c ∈ ['.'].intercalate labels, allowed c = true ∨ c = '.' := by
    intro c hc
    match labels, hlen, hall with
    | l0 :: rest, _, hall =>
      rw [intercalate_dot_cons, List.mem_append, List.mem_flatten] at hc
      rcases hc with hc | ⟨y, hy, hcy⟩
      · exact Or.inl ((hall l0 (List.mem_cons_self _ _)).2.2 c hc)
      · obtain ⟨l, hl, rfl⟩ := List.mem_map.1 hy
        rcases List.mem_cons.1 hcy with rfl | hcl
        · exact Or.inr rfl
        · exact Or.inl ((hall l (List.mem_cons_of_mem _ hl)).2.2 c hcl)
  intro c hc
  rcases hs with hs | hs
  · rw [hs] at hc
    exact key c hc
  · rw [hs, List.mem_append] at hc
    rcases hc with hc | hc
    · exact key c hc
    · exact Or.inr (List.mem_singleton.1 hc)

/-- C10 as amended: a value that does not parse as an IP address is passed to
`handleName`, not discarded, exactly when it is made of at least two labels
separated by dots, each of 1 to 63 ASCII letters, digits, hyphens or
underscores, optionally followed by a single trailing dot. -/
theorem hostname_grammar (z : Bool) (parseIP : String → Option String) (r : Resolver)
    (input : String) (hip : parseIP input = none) :
    (resolveInput z parseIP r input = some (handleName z r input) ↔
      IsHostname isLabelChar input) ∧
    (resolveInput z parseIP r input = none ↔ ¬ IsHostname isLabelChar input) := by
  rw [← matchString_iff]
  unfold resolveInput
  rw [hip]
  cases h : matchString input <;> simp

/-- C10, counterexample: `a_b.example` does not parse as an IP address and has an
underscore, so it is not made of labels of letters, digits and hyphens, yet
it matches the pattern and is passed to `handleName`. -/
theorem hostname_grammar_counterexample :
    dottedQuad "a_b.example" = none ∧
    matchString "a_b.example" = true ∧
    resolveInput true dottedQuad scenarioResolver "a_b.example" =
      some (handleName true scenarioResolver "a_b.example") ∧
    ¬ IsHostname isLetterDigitHyphen "a_b.example" := by
  have hm : matchString "a_b.example" = true := by decide
  refine ⟨by decide, hm, ?_, ?_⟩
  · have hq : dottedQuad "a_b.example" = none := by decide
    simp [resolveInput, hq, hm]
  · intro h
    have := h.chars '_' (by decide)
    revert this
    decide

/-- C10 as amended, witness: `a_b.example.` with one trailing dot. -/
theorem hostname_grammar_witness :
    dottedQuad "a_b.example." = none ∧
    ((resolveInput true dottedQuad scenarioResolver "a_b.example." =
        some (handleName true scenarioResolver "a_b.example.") ↔
      IsHostname isLabelChar "a_b.example.") ∧
    (resolveInput true dottedQuad scenarioResolver "a_b.example." = none ↔
      ¬ IsHostname isLabelChar "a_b.example.")) :=
  ⟨by decide, hostname_grammar true dottedQuad scenarioResolver "a_b.example." (by decide)⟩

end Roundtrip
